import Mathlib

/-! Shallow embedding of the retrieval pipeline of the RAG_support
repository: the boundary-snapping text chunker
(`TextChunkerService.chunkText` / `findSentenceBoundary`), the in-memory
vector index (`VectorDbService.cosineSimilarity` / `searchSimilar`), the
orchestrator (`RagService.initializeRag` / `query`) and the crawl loop
(`WebScraperService.scrapeWebsite`), together with theorems about their
chunk layout, ranking, error handling and visit-uniqueness behaviour.

Modelling conventions:
* JavaScript strings handled character-by-character are modelled as
  `List Char`; `text.slice(a, b)` becomes `(l.drop a).take (b - a)`.
* JavaScript numbers are modelled as `Nat` for character offsets and as
  `ℝ` for embedding-vector components.
* A thrown `Error` / `HttpException` is modelled with `Except String`.
* External I/O (page fetches, the embedding API, the chat-completion
  API) is modelled by oracle functions passed in as parameters.
-/

namespace Rag

/-- Character class of the regex `[.!?]` used by `findSentenceBoundary`. -/
def isSentencePunct (c : Char) : Bool :=
  c == '.' || c == '!' || c == '?'

/-- Character class of the JavaScript regex `\s` (ECMAScript WhiteSpace
and LineTerminator code points). -/
def isJsWs (c : Char) : Bool :=
  c == ' ' || c == '\t' || c == '\n' || c == '\r' || c == '\x0b' || c == '\x0c' ||
  c == '\u00A0' || c == '\u1680' || (0x2000 ≤ c.toNat && c.toNat ≤ 0x200A) ||
  c == '\u2028' || c == '\u2029' || c == '\u202F' || c == '\u205F' ||
  c == '\u3000' || c == '\uFEFF'

/-- Length of the maximal whitespace run at the head of the list: what the
greedy quantifier in `\s+` consumes at a match position. -/
def wsRun : List Char → Nat
  | [] => 0
  | c :: cs => if isJsWs c then wsRun cs + 1 else 0

/-- First (leftmost) match of the regex `[.!?]\s+`, as performed by
`/[.!?]\s+/.exec(searchText)`: returns the match index together with the
length of the match (`1` punctuation character plus the greedy
whitespace run). -/
def execSentence : List Char → Option (Nat × Nat)
  | [] => none
  | c :: cs =>
    if isSentencePunct c ∧ 0 < wsRun cs then some (0, 1 + wsRun cs)
    else (execSentence cs).map (fun p => (p.1 + 1, p.2))

/-- Test whether the next (remaining) character is a newline. -/
def headIsNl : List Char → Bool
  | d :: _ => d == '\n'
  | [] => false

/-- First (leftmost) match index of the regex `\n\n`, as performed by
`/\n\n/.exec(searchText)`; the match length is always `2`. -/
def execPara : List Char → Option Nat
  | [] => none
  | c :: cs =>
    if c == '\n' && headIsNl cs then some 0
    else (execPara cs).map (fun i => i + 1)

/-- The local `searchStart = Math.max(start, end - 200)` of
`findSentenceBoundary`. -/
def searchStartAt (start e : Nat) : Nat :=
  max start (e - 200)

/-- The local `searchText = text.slice(searchStart, end)` of
`findSentenceBoundary`: the last (at most) 200 characters of the
tentative window. -/
def searchWindow (text : List Char) (start e : Nat) : List Char :=
  (text.drop (searchStartAt start e)).take (e - searchStartAt start e)

/-- Embedding of `TextChunkerService.findSentenceBoundary(text, start, end)`:
search the last 200 characters of the tentative window for the first
sentence-boundary match, fall back to the first paragraph break, and
otherwise keep the tentative end. -/
def findSentenceBoundary (text : List Char) (start e : Nat) : Nat :=
  match execSentence (searchWindow text start e) with
  | some (i, len) => searchStartAt start e + i + len
  | none =>
    match execPara (searchWindow text start e) with
    | some i => searchStartAt start e + i + 2
    | none => e

/-- Embedding of the `TextChunk` interface of the chunker. -/
structure TextChunk where
  text : List Char
  index : Nat
  startChar : Nat
  endChar : Nat
deriving DecidableEq

/-- The fixed `chunkSize` field of `TextChunkerService` (1000 characters). -/
def chunkSize : Nat := 1000

/-- Adjusted end used for the chunk beginning at `startChar`:
`findSentenceBoundary(text, startChar, min(startChar + chunkSize, text.length))`. -/
def adjustedEndAt (text : List Char) (startChar : Nat) : Nat :=
  findSentenceBoundary text startChar (min (startChar + chunkSize) text.length)

/-- The chunk object pushed by one iteration of the `chunkText` loop. -/
def mkChunk (text : List Char) (startChar index : Nat) : TextChunk :=
  { text := (text.drop startChar).take (adjustedEndAt text startChar - startChar)
    index := index
    startChar := startChar
    endChar := adjustedEndAt text startChar }

/-- The loop advance `Math.max(adjustedEnd - chunkOverlap, startChar + chunkSize)`. -/
def advanceStart (overlap adjustedEnd startChar : Nat) : Nat :=
  max (adjustedEnd - overlap) (startChar + chunkSize)

/-- Embedding of the `while (startChar < text.length)` loop of
`TextChunkerService.chunkText`, parametrised by the configured
`chunkOverlap` value. -/
def chunkAux (overlap : Nat) (text : List Char) (startChar index : Nat) :
    List TextChunk :=
  if h : startChar < text.length then
    mkChunk text startChar index ::
      chunkAux overlap text
        (advanceStart overlap (adjustedEndAt text startChar) startChar) (index + 1)
  else []
termination_by text.length - startChar
decreasing_by
  have h2 : startChar + chunkSize ≤
      advanceStart overlap (adjustedEndAt text startChar) startChar :=
    Nat.le_max_right _ _
  have h3 : (0 : Nat) < chunkSize := by decide
  omega

/-- The chunker with an explicit `chunkOverlap` parameter. -/
def chunkTextWith (overlap : Nat) (text : List Char) : List TextChunk :=
  chunkAux overlap text 0 0

/-- Embedding of `TextChunkerService.chunkText` with the service's fixed
`chunkOverlap = 200`. -/
def chunkText (text : List Char) : List TextChunk :=
  chunkTextWith 200 text

/-- Observation predicate: the regex `[.!?]\s+` matches the window `w` at
index `i` (a sentence punctuation character followed by at least one
whitespace character). -/
def sentMatchAt (w : List Char) (i : Nat) : Bool :=
  match w.drop i with
  | c :: d :: _ => isSentencePunct c && isJsWs d
  | _ => false

/-- Observation predicate: the regex `\n\n` matches the window `w` at
index `i`. -/
def paraMatchAt (w : List Char) (i : Nat) : Bool :=
  match w.drop i with
  | '\n' :: '\n' :: _ => true
  | _ => false

/-- End position (inside the window) of the greedy `[.!?]\s+` match that
begins at index `i` of the window `w`. -/
def matchEndAt (w : List Char) (i : Nat) : Nat :=
  i + 1 + wsRun (w.drop (i + 1))

/-- Metadata record attached to each document by `initializeRag` step 4. -/
structure DocMetadata where
  index : Nat
  startChar : Nat
  endChar : Nat
  source : String
  baseUrls : List String

/-- Embedding of the `Document` interface of `VectorDbService` (vector
components, JavaScript `number`s, are modelled as reals). -/
structure Document where
  id : String
  text : String
  embedding : List ℝ
  metadata : Option DocMetadata

/-- The `dotProduct` accumulator of the `cosineSimilarity` loop
(`dotProduct += vecA[i] * vecB[i]` over the common indices). -/
def dotProduct (vecA vecB : List ℝ) : ℝ :=
  ((vecA.zip vecB).map (fun p => p.1 * p.2)).sum

/-- The `normA`/`normB` accumulator of the same loop before `Math.sqrt`
is applied: the sum of squared components. -/
def sumSq (v : List ℝ) : ℝ :=
  (v.map (fun x => x * x)).sum

/-- Value computed by `VectorDbService.cosineSimilarity` once the length
guard has passed: `0` when either norm is zero, otherwise
`dotProduct / (normA * normB)`. -/
noncomputable def cosSimVal (vecA vecB : List ℝ) : ℝ :=
  if Real.sqrt (sumSq vecA) = 0 ∨ Real.sqrt (sumSq vecB) = 0 then 0
  else dotProduct vecA vecB / (Real.sqrt (sumSq vecA) * Real.sqrt (sumSq vecB))

/-- Embedding of `VectorDbService.cosineSimilarity`, including the guard
that throws `Vectors must have the same length`. -/
noncomputable def cosineSimilarity (vecA vecB : List ℝ) : Except String ℝ :=
  if vecA.length ≠ vecB.length then
    Except.error "Vectors must have the same length"
  else
    Except.ok (cosSimVal vecA vecB)

/-- The comparator `(a, b) => b.similarity - a.similarity` handed to
`Array.prototype.sort`, read as the total preorder it induces on the
`similarities` entries: `a` may be placed before `b` exactly when
`b.similarity ≤ a.similarity`. -/
def simBefore (a b : Document × ℝ) : Prop :=
  b.2 ≤ a.2

noncomputable instance : DecidableRel simBefore :=
  fun a b => Real.decidableLE b.2 a.2

instance : IsTotal (Document × ℝ) simBefore :=
  ⟨fun a b => le_total b.2 a.2⟩

instance : IsTrans (Document × ℝ) simBefore :=
  ⟨fun _ _ _ h1 h2 => le_trans h2 h1⟩

/-- The `similarities` array of `searchSimilar`: every stored document
paired with its cosine similarity to the query.  A length mismatch on any
document aborts the whole computation, as the thrown exception does. -/
noncomputable def docSimPairs (queryEmbedding : List ℝ) (docs : List Document) :
    Except String (List (Document × ℝ)) :=
  docs.mapM (fun doc =>
    (cosineSimilarity queryEmbedding doc.embedding).map (fun s => (doc, s)))

/-- Embedding of `VectorDbService.searchSimilar`: an empty collection
short-circuits to `[]`; otherwise sort by similarity, highest first, take
the first `topK` entries and keep only the documents.  ECMAScript 2019
requires `Array.prototype.sort` to be stable, and a stable sort is
determined uniquely by the comparator's preorder, so the stable insertion
sort `List.insertionSort simBefore` models it exactly. -/
noncomputable def searchSimilar (docs : List Document) (queryEmbedding : List ℝ)
    (topK : Nat) : Except String (List Document) :=
  if docs.isEmpty then
    Except.ok []
  else
    (docSimPairs queryEmbedding docs).map (fun sims =>
      ((sims.insertionSort simBefore).take topK).map (fun item => item.1))

/-- Mutable state of `RagService` together with the document collection
owned by `VectorDbService`. -/
structure RagState where
  documents : List Document
  isInitialized : Bool
  websiteUrl : Option String

/-- JavaScript truthiness of `!this.websiteUrl`: absent or empty. -/
def optStrFalsy : Option String → Bool
  | none => true
  | some s => s.isEmpty

/-- The per-seed tag `\n\n=== Website: url ===\n\n` + scraped content
pushed onto `allContent` by `initializeRag`. -/
def websiteTag (url content : String) : String :=
  "\n\n=== Website: " ++ url ++ " ===\n\n" ++ content

/-- One document built by `initializeRag` step 4.  `stripMarkers` and
`extractSource` are oracle parameters standing for the two regex
operations on the chunk text (removal of `=== Page/Website: ... ===`
markers, and recovery of the source URL from such a marker, `none` when
no marker matches); `now` is `Date.now()`.  `embeddings[index]` for an
out-of-range index (`undefined` in JavaScript) is modelled by `[]`, and
`urls[0]` of an empty list by `""`. -/
def mkRagDocument (stripMarkers : String → String)
    (extractSource : String → Option String) (now : Nat) (urls : List String)
    (embeddings : List (List ℝ)) (index : Nat) (chunk : TextChunk) : Document :=
  { id := "chunk_" ++ toString index ++ "_" ++ toString now
    text := stripMarkers (String.mk chunk.text)
    embedding := (embeddings.get? index).getD []
    metadata := some
      { index := chunk.index
        startChar := chunk.startChar
        endChar := chunk.endChar
        source := (extractSource (String.mk chunk.text)).getD ((urls.head?).getD "")
        baseUrls := urls } }

/-- Embedding of `RagService.initializeRag`.  Oracles: `scrape` is
`webScraperService.scrapeWebsite` (`none` = the scrape threw and that URL
is skipped with a warning); `embed` is
`embeddingService.generateEmbeddings` (`none` = the embedder failed).
Returns the state after the run together with the run's outcome (the
service wraps error messages in an `HttpException`; only the message
core is modelled).  `clearCollection` followed by `addDocuments` is the
final state update; `this.websiteUrl = urls[0]` happens before any
failure can occur, exactly as in the source. -/
noncomputable def initializeRag (scrape : String → Option String)
    (embed : List String → Option (List (List ℝ)))
    (stripMarkers : String → String) (extractSource : String → Option String)
    (now : Nat) (urls : List String) (st : RagState) :
    RagState × Except String Unit :=
  let st1 : RagState := { st with websiteUrl := urls.head? }
  let allContent := urls.filterMap (fun url => (scrape url).map (websiteTag url))
  if allContent.isEmpty then
    (st1, Except.error "No content scraped from any website")
  else
    let chunks := chunkText (String.intercalate "\n\n" allContent).toList
    if chunks.isEmpty then
      (st1, Except.error "No content chunks created from websites")
    else
      match embed (chunks.map (fun c => String.mk c.text)) with
      | none => (st1, Except.error "Failed to generate embeddings")
      | some embeddings =>
        ({ documents := chunks.enum.map (fun p =>
              mkRagDocument stripMarkers extractSource now urls embeddings p.1 p.2)
           isInitialized := true
           websiteUrl := st1.websiteUrl },
         Except.ok ())

/-- Effects performed by one `RagService.query` run, in order. -/
inductive QueryEffect
  | embedCall (text : String)
  | vectorSearch
  | llmCall (prompt : String)
deriving DecidableEq

/-- JavaScript truthiness of `!query || !query.trim()`: the string is
empty or consists of whitespace only. -/
def isBlankText (q : String) : Bool :=
  q.toList.all isJsWs

/-- Message of the input-error thrown for a blank query. -/
def queryRequiredMsg : String :=
  "Query is required"

/-- Message of the state-error thrown when the RAG system is queried
before it has been initialized. -/
def notInitializedMsg : String :=
  "RAG system not initialized. Please initialize with a website URL first via /rag/initialize endpoint or set RAG_WEBSITE_URL environment variable."

/-- Message of the not-found error when the search returns nothing. -/
def noRelevantMsg : String :=
  "No relevant content found for your query"

/-- The prompt assembled by `RagService.query` from the retrieved context
block and the question. -/
def buildPrompt (context query : String) : String :=
  "You are a helpful AI assistant. Answer the user's question based on the following context from a website. Only provide answer if you find something don't give any generic answer If the answer cannot be found in the context, say so.\n\nContext:\n"
    ++ context ++ "\n\nQuestion: " ++ query ++ "\n\nAnswer:"

/-- Embedding of `RagService.query`.  Oracles: `embedOne` is
`generateEmbedding` (`none` = failure); `llm` is the chat-completion call
(`none` = transport failure, otherwise the optional message content of
the first choice — an absent or empty content falls back to
`No answer generated`).  Returns the outcome together with the
chronological list of embedder / vector-search / chat-completion calls
that were made. -/
noncomputable def ragQuery (embedOne : String → Option (List ℝ))
    (llm : String → Option (Option String)) (st : RagState) (query : String) :
    Except String String × List QueryEffect :=
  if isBlankText query then
    (Except.error queryRequiredMsg, [])
  else if !st.isInitialized || optStrFalsy st.websiteUrl then
    (Except.error notInitializedMsg, [])
  else
    match embedOne query with
    | none =>
      (Except.error "Failed to generate embedding", [QueryEffect.embedCall query])
    | some queryEmbedding =>
      match searchSimilar st.documents queryEmbedding 5 with
      | Except.error e =>
        (Except.error ("An error occurred while processing your query: " ++ e),
         [QueryEffect.embedCall query, QueryEffect.vectorSearch])
      | Except.ok similarDocs =>
        if similarDocs.isEmpty then
          (Except.error noRelevantMsg,
           [QueryEffect.embedCall query, QueryEffect.vectorSearch])
        else
          match llm (buildPrompt
              (String.intercalate "\n\n---\n\n" (similarDocs.map (fun d => d.text)))
              query) with
          | none =>
            (Except.error "An error occurred while processing your query",
             [QueryEffect.embedCall query, QueryEffect.vectorSearch,
              QueryEffect.llmCall (buildPrompt
                (String.intercalate "\n\n---\n\n" (similarDocs.map (fun d => d.text)))
                query)])
          | some content =>
            (Except.ok (match content with
              | some s => if s.isEmpty then "No answer generated" else s
              | none => "No answer generated"),
             [QueryEffect.embedCall query, QueryEffect.vectorSearch,
              QueryEffect.llmCall (buildPrompt
                (String.intercalate "\n\n---\n\n" (similarDocs.map (fun d => d.text)))
                query)])

/-- The `maxPages` crawl cap of `WebScraperService` (50). -/
def maxPages : Nat :=
  50

/-- State of one `scrapeWebsite` session: the visited set (in insertion
order), the pending `urlsToVisit` queue, the accumulated tagged page
contents, and the log of URLs for which a page fetch (`scrapeSinglePage`)
was attempted, in order. -/
structure CrawlState where
  visited : List String
  queue : List String
  content : List String
  fetchLog : List String
deriving DecidableEq

/-- The `\n\n=== Page: url ===\n\n` + content entry pushed for a
non-blank page. -/
def pageTag (url content : String) : String :=
  "\n\n=== Page: " ++ url ++ " ===\n\n" ++ content

/-- The inner `for (const link of links)` loop of `scrapeWebsite`:
enqueue each discovered link unless it is already visited or already
pending — the queue-membership test sees the links pushed earlier in the
same loop, hence the fold. -/
def enqueueLinks (visited : List String) (queue : List String)
    (links : List String) : List String :=
  links.foldl (fun acc link =>
    if link ∉ visited ∧ link ∉ acc then acc ++ [link] else acc) queue

/-- Embedding of the `while` loop of `WebScraperService.scrapeWebsite`.
Oracles: `fetch` is `scrapeSinglePage` (`none` = the fetch threw, the
`catch` skips the page and the URL is not marked visited); `links` is
`extractLinks`, which never throws (its own `catch` returns `[]`).  Note
that `visitedUrls.add(currentUrl)` runs only after a successful fetch,
and that links are enqueued before the current URL is marked visited. -/
def crawlLoop (fetch : String → Option String) (links : String → List String)
    (st : CrawlState) : CrawlState :=
  match hq : st.queue with
  | [] => st
  | currentUrl :: rest =>
    if hv : st.visited.length < maxPages then
      if currentUrl ∈ st.visited then
        crawlLoop fetch links { st with queue := rest }
      else
        match fetch currentUrl with
        | none =>
          crawlLoop fetch links
            { st with queue := rest, fetchLog := st.fetchLog ++ [currentUrl] }
        | some pageContent =>
          crawlLoop fetch links
            { visited := st.visited ++ [currentUrl]
              queue := enqueueLinks st.visited rest (links currentUrl)
              content :=
                if isBlankText pageContent then st.content
                else st.content ++ [pageTag currentUrl pageContent]
              fetchLog := st.fetchLog ++ [currentUrl] }
    else st
termination_by (maxPages - st.visited.length, st.queue.length)
decreasing_by
  · apply Prod.Lex.right
    simp [hq]
  · apply Prod.Lex.right
    simp [hq]
  · apply Prod.Lex.left
    simp only [List.length_append, List.length_cons, List.length_nil]
    omega

/-- One crawl session from a seed URL: the final loop state of
`scrapeWebsite(baseUrl)`. -/
def scrapeWebsiteState (fetch : String → Option String)
    (links : String → List String) (baseUrl : String) : CrawlState :=
  crawlLoop fetch links { visited := [], queue := [baseUrl], content := [], fetchLog := [] }

/-- Result of `scrapeWebsite`: the combined content of the session, or
the `No content found on any pages` error when it is blank. -/
def scrapeWebsite (fetch : String → Option String)
    (links : String → List String) (baseUrl : String) : Except String String :=
  let combined :=
    String.intercalate "\n\n" (scrapeWebsiteState fetch links baseUrl).content
  if isBlankText combined then
    Except.error "No content found on any pages"
  else
    Except.ok combined

/-! Lemmas about the regex-search embedding. -/

theorem wsRun_le (l : List Char) : wsRun l ≤ l.length := by
  induction l with
  | nil => simp [wsRun]
  | cons c cs ih =>
    simp only [wsRun, List.length_cons]
    split <;> omega

theorem sentMatchAt_succ (c : Char) (cs : List Char) (j : Nat) :
    sentMatchAt (c :: cs) (j + 1) = sentMatchAt cs j := rfl

theorem sentMatchAt_zero (c : Char) (cs : List Char) :
    sentMatchAt (c :: cs) 0 = (isSentencePunct c && decide (0 < wsRun cs)) := by
  cases cs with
  | nil => simp [sentMatchAt, wsRun]
  | cons d t =>
    simp only [sentMatchAt, List.drop_zero, wsRun]
    by_cases h : isJsWs d <;> simp [h]

theorem sentMatchAt_nil (i : Nat) : sentMatchAt [] i = false := by
  simp [sentMatchAt]

theorem paraMatchAt_succ (c : Char) (cs : List Char) (j : Nat) :
    paraMatchAt (c :: cs) (j + 1) = paraMatchAt cs j := rfl

theorem paraMatchAt_zero (c : Char) (cs : List Char) :
    paraMatchAt (c :: cs) 0 = (c == '\n' && headIsNl cs) := by
  cases cs with
  | nil => simp [paraMatchAt, headIsNl]
  | cons d t =>
    simp only [paraMatchAt, List.drop_zero, headIsNl]
    by_cases h1 : c = '\n' <;> by_cases h2 : d = '\n' <;> simp [h1, h2]

theorem paraMatchAt_nil (i : Nat) : paraMatchAt [] i = false := by
  simp [paraMatchAt]

theorem execSentence_some :
    ∀ {w : List Char} {i n : Nat}, execSentence w = some (i, n) →
      sentMatchAt w i = true ∧ (∀ j, j < i → sentMatchAt w j = false) ∧
        n = 1 + wsRun (w.drop (i + 1)) ∧ 2 ≤ n ∧ i + n ≤ w.length := by
  intro w
  induction w with
  | nil => intro i n h; simp [execSentence] at h
  | cons c cs ih =>
    intro i n h
    simp only [execSentence] at h
    by_cases g : isSentencePunct c ∧ 0 < wsRun cs
    · rw [if_pos g] at h
      simp only [Option.some.injEq, Prod.mk.injEq] at h
      obtain ⟨hi, hn⟩ := h
      subst hi; subst hn
      refine ⟨?_, by omega, by simp, by omega, ?_⟩
      · rw [sentMatchAt_zero]
        simp [g.1, g.2]
      · have := wsRun_le cs
        simp only [List.length_cons]
        omega
    · rw [if_neg g] at h
      rcases Option.map_eq_some'.mp h with ⟨⟨i', n'⟩, hcs, heq⟩
      simp only [Prod.mk.injEq] at heq
      obtain ⟨hi, hn⟩ := heq
      subst hi; subst hn
      obtain ⟨m1, m2, m3, m4, m5⟩ := ih hcs
      refine ⟨by rwa [sentMatchAt_succ], ?_, by simpa using m3, m4, ?_⟩
      · intro j hj
        cases j with
        | zero =>
          rw [sentMatchAt_zero]
          rcases Decidable.not_and_iff_or_not.mp g with hg | hg
          · simp [Bool.eq_false_iff.mpr hg]
          · simp [hg]
        | succ j' => rw [sentMatchAt_succ]; exact m2 j' (by omega)
      · simp only [List.length_cons]; omega

theorem execSentence_none :
    ∀ {w : List Char}, execSentence w = none → ∀ i, sentMatchAt w i = false := by
  intro w
  induction w with
  | nil => intro _ i; exact sentMatchAt_nil i
  | cons c cs ih =>
    intro h i
    simp only [execSentence] at h
    by_cases g : isSentencePunct c ∧ 0 < wsRun cs
    · rw [if_pos g] at h; exact absurd h (by simp)
    · rw [if_neg g] at h
      have hcs : execSentence cs = none := Option.map_eq_none'.mp h
      cases i with
      | zero =>
        rw [sentMatchAt_zero]
        rcases Decidable.not_and_iff_or_not.mp g with hg | hg
        · simp [Bool.eq_false_iff.mpr hg]
        · simp [hg]
      | succ j => rw [sentMatchAt_succ]; exact ih hcs j

theorem execPara_some :
    ∀ {w : List Char} {i : Nat}, execPara w = some i →
      paraMatchAt w i = true ∧ (∀ j, j < i → paraMatchAt w j = false) ∧
        i + 2 ≤ w.length := by
  intro w
  induction w with
  | nil => intro i h; simp [execPara] at h
  | cons c cs ih =>
    intro i h
    simp only [execPara] at h
    by_cases g : (c == '\n' && headIsNl cs) = true
    · rw [if_pos g] at h
      injection h with h2
      subst h2
      refine ⟨by rw [paraMatchAt_zero]; exact g, by omega, ?_⟩
      · obtain ⟨d, t, ht⟩ : ∃ d t, cs = d :: t := by
          cases cs with
          | nil => simp [headIsNl] at g
          | cons d t => exact ⟨d, t, rfl⟩
        subst ht
        simp only [List.length_cons]
        omega
    · rw [if_neg g] at h
      rcases Option.map_eq_some'.mp h with ⟨i', hcs, heq⟩
      subst heq
      obtain ⟨m1, m2, m3⟩ := ih hcs
      refine ⟨by rwa [paraMatchAt_succ], ?_, by simp only [List.length_cons]; omega⟩
      intro j hj
      cases j with
      | zero => rw [paraMatchAt_zero]; exact Bool.eq_false_iff.mpr g
      | succ j' => rw [paraMatchAt_succ]; exact m2 j' (by omega)

theorem execPara_none :
    ∀ {w : List Char}, execPara w = none → ∀ i, paraMatchAt w i = false := by
  intro w
  induction w with
  | nil => intro _ i; exact paraMatchAt_nil i
  | cons c cs ih =>
    intro h i
    simp only [execPara] at h
    by_cases g : (c == '\n' && headIsNl cs) = true
    · rw [if_pos g] at h; exact absurd h (by simp)
    · rw [if_neg g] at h
      have hcs : execPara cs = none := Option.map_eq_none'.mp h
      cases i with
      | zero => rw [paraMatchAt_zero]; exact Bool.eq_false_iff.mpr g
      | succ j => rw [paraMatchAt_succ]; exact ih hcs j

/-! Lemmas about `findSentenceBoundary` and the chunking loop. -/

theorem searchStartAt_ge (start e : Nat) : start ≤ searchStartAt start e :=
  Nat.le_max_left _ _

theorem searchStartAt_le {start e : Nat} (h : start ≤ e) :
    searchStartAt start e ≤ e :=
  Nat.max_le.mpr ⟨h, Nat.sub_le _ _⟩

theorem searchWindow_length {text : List Char} {start e : Nat}
    (h1 : start ≤ e) (h2 : e ≤ text.length) :
    (searchWindow text start e).length = e - searchStartAt start e := by
  have h3 := searchStartAt_le h1
  simp only [searchWindow, List.length_take, List.length_drop]
  omega

theorem findSentenceBoundary_le {text : List Char} {start e : Nat}
    (h1 : start ≤ e) (h2 : e ≤ text.length) :
    findSentenceBoundary text start e ≤ e := by
  have hw := searchWindow_length h1 h2
  have h3 := searchStartAt_le h1
  unfold findSentenceBoundary
  cases hs : execSentence (searchWindow text start e) with
  | some p =>
    obtain ⟨i, n⟩ := p
    have := (execSentence_some hs).2.2.2.2
    dsimp only
    omega
  | none =>
    dsimp only
    cases hp : execPara (searchWindow text start e) with
    | some i =>
      have := (execPara_some hp).2.2
      dsimp only
      omega
    | none => exact Nat.le_refl e

theorem lt_findSentenceBoundary {text : List Char} {start e : Nat}
    (h1 : start < e) (h2 : e ≤ text.length) :
    start < findSentenceBoundary text start e := by
  have h3 := searchStartAt_ge start e
  unfold findSentenceBoundary
  cases hs : execSentence (searchWindow text start e) with
  | some p =>
    obtain ⟨i, n⟩ := p
    have := (execSentence_some hs).2.2.2.1
    dsimp only
    omega
  | none =>
    dsimp only
    cases hp : execPara (searchWindow text start e) with
    | some i => dsimp only; omega
    | none => exact h1

theorem adjustedEndAt_bounds {text : List Char} {s : Nat} (h : s < text.length) :
    s < adjustedEndAt text s ∧
      adjustedEndAt text s ≤ min (s + chunkSize) text.length := by
  have h1 : s < min (s + chunkSize) text.length := by
    have : (0 : Nat) < chunkSize := by decide
    omega
  have h2 : min (s + chunkSize) text.length ≤ text.length := Nat.min_le_right _ _
  exact ⟨lt_findSentenceBoundary h1 h2,
    findSentenceBoundary_le (Nat.le_of_lt h1) h2⟩

theorem advanceStart_eq {text : List Char} {s : Nat} (ov : Nat)
    (h : s < text.length) :
    advanceStart ov (adjustedEndAt text s) s = s + chunkSize := by
  have h2 := (adjustedEndAt_bounds h).2
  have h3 : adjustedEndAt text s ≤ s + chunkSize :=
    Nat.le_trans h2 (Nat.min_le_left _ _)
  unfold advanceStart
  apply Nat.max_eq_right
  omega

theorem chunkAux_pos (overlap : Nat) (text : List Char) (startChar index : Nat)
    (h : startChar < text.length) :
    chunkAux overlap text startChar index =
      mkChunk text startChar index ::
        chunkAux overlap text
          (advanceStart overlap (adjustedEndAt text startChar) startChar)
          (index + 1) := by
  rw [chunkAux, dif_pos h]

theorem chunkAux_neg (overlap : Nat) (text : List Char) (startChar index : Nat)
    (h : ¬ startChar < text.length) :
    chunkAux overlap text startChar index = [] := by
  rw [chunkAux, dif_neg h]

theorem chunkAux_step (overlap : Nat) (text : List Char) (s i : Nat)
    (h : s < text.length) :
    chunkAux overlap text s i =
      mkChunk text s i :: chunkAux overlap text (s + chunkSize) (i + 1) := by
  rw [chunkAux_pos overlap text s i h, advanceStart_eq overlap h]

theorem chunkAux_length (overlap : Nat) (text : List Char) :
    ∀ s i, (chunkAux overlap text s i).length = (text.length - s + 999) / 1000 := by
  intro s i
  induction s, i using chunkAux.induct overlap text with
  | case1 s i h ih =>
    rw [advanceStart_eq overlap h] at ih
    rw [chunkAux_step overlap text s i h]
    simp only [List.length_cons, ih]
    simp only [chunkSize]
    omega
  | case2 s i h =>
    rw [chunkAux_neg overlap text s i h]
    simp only [List.length_nil]
    omega

theorem chunkAux_get? (overlap : Nat) (text : List Char) :
    ∀ j s i, j < (chunkAux overlap text s i).length →
      (chunkAux overlap text s i).get? j =
        some (mkChunk text (s + chunkSize * j) (i + j)) := by
  intro j
  induction j with
  | zero =>
    intro s i hj
    have hs : s < text.length := by
      by_contra hs
      rw [chunkAux_neg overlap text s i hs] at hj
      simp at hj
    rw [chunkAux_step overlap text s i hs]
    simp
  | succ j ih =>
    intro s i hj
    have hs : s < text.length := by
      by_contra hs
      rw [chunkAux_neg overlap text s i hs] at hj
      simp at hj
    rw [chunkAux_step overlap text s i hs] at hj ⊢
    simp only [List.length_cons] at hj
    have := ih (s + chunkSize) (i + 1) (by omega)
    rw [List.get?_cons_succ, this]
    have e1 : s + chunkSize + chunkSize * j = s + chunkSize * (j + 1) := by ring
    have e2 : i + 1 + j = i + (j + 1) := by ring
    rw [e1, e2]

theorem chunkAux_overlap (ov : Nat) (text : List Char) :
    ∀ s i, chunkAux ov text s i = chunkAux 200 text s i := by
  intro s i
  induction s, i using chunkAux.induct ov text with
  | case1 s i h ih =>
    rw [advanceStart_eq ov h] at ih
    rw [chunkAux_step ov text s i h, chunkAux_step 200 text s i h, ih]
  | case2 s i h =>
    rw [chunkAux_neg ov text s i h, chunkAux_neg 200 text s i h]

/-! Theorems for the chunker claims. -/

/-- C1.  On the input text `ab. cd` (length 6) the chunker returns a
single chunk spanning `[0, 4)`: the snapped end cuts the final chunk
short, the last chunk does not end at the length of the text, and the
character positions 4 and 5 lie in no chunk — the claimed end-to-end,
gap-free coverage fails on the code. -/
theorem claim_C1_eval :
    chunkText ['a', 'b', '.', ' ', 'c', 'd'] = [⟨['a', 'b', '.', ' '], 0, 0, 4⟩] ∧
    (chunkText ['a', 'b', '.', ' ', 'c', 'd']).all
      (fun c => !(decide (c.startChar ≤ 4) && decide (4 < c.endChar))) = true ∧
    (chunkText ['a', 'b', '.', ' ', 'c', 'd']).all
      (fun c => decide (c.endChar ≠ 6)) = true := by
  have h : chunkText ['a', 'b', '.', ' ', 'c', 'd'] =
      [⟨['a', 'b', '.', ' '], 0, 0, 4⟩] := by
    show chunkAux 200 ['a', 'b', '.', ' ', 'c', 'd'] 0 0 = _
    rw [chunkAux_step 200 ['a', 'b', '.', ' ', 'c', 'd'] 0 0 (by decide),
      chunkAux_neg 200 ['a', 'b', '.', ' ', 'c', 'd'] (0 + chunkSize) (0 + 1)
        (by decide)]
    decide
  refine ⟨h, ?_, ?_⟩ <;> rw [h] <;> decide

/-- C4.  On the non-empty input `Hi. Bye` (length 7, shorter than the
chunk size 1000) the chunker returns exactly one chunk, but that chunk is
`[0, 4)` rather than `[0, 7)`: the sentence-boundary snap also applies to
the final window, so the single chunk does not cover the whole text. -/
theorem claim_C4_eval :
    chunkText ['H', 'i', '.', ' ', 'B', 'y', 'e'] =
      [⟨['H', 'i', '.', ' '], 0, 0, 4⟩] ∧
    (chunkText ['H', 'i', '.', ' ', 'B', 'y', 'e']).all
      (fun c => decide (c.endChar ≠ 7)) = true ∧
    chunkText [] = [] := by
  have h : chunkText ['H', 'i', '.', ' ', 'B', 'y', 'e'] =
      [⟨['H', 'i', '.', ' '], 0, 0, 4⟩] := by
    show chunkAux 200 ['H', 'i', '.', ' ', 'B', 'y', 'e'] 0 0 = _
    rw [chunkAux_step 200 ['H', 'i', '.', ' ', 'B', 'y', 'e'] 0 0 (by decide),
      chunkAux_neg 200 ['H', 'i', '.', ' ', 'B', 'y', 'e'] (0 + chunkSize) (0 + 1)
        (by decide)]
    decide
  refine ⟨h, by rw [h]; decide, ?_⟩
  show chunkAux 200 [] 0 0 = []
  rw [chunkAux_neg 200 [] 0 0 (by decide)]

/-- C5, counterexample.  In the window of `a. b. xyz` there are two
sentence-boundary matches, at indices 1 (ending at 3) and 4 (ending at
6); the boundary nearest the tentative end is the one ending at 6, but
`findSentenceBoundary` — which uses `RegExp.exec`, i.e. the first match —
returns 3. -/
theorem claim_C5_cex :
    findSentenceBoundary ['a', '.', ' ', 'b', '.', ' ', 'x', 'y', 'z'] 0 9 = 3 ∧
    sentMatchAt (searchWindow ['a', '.', ' ', 'b', '.', ' ', 'x', 'y', 'z'] 0 9) 4
      = true ∧
    searchStartAt 0 9 +
      matchEndAt (searchWindow ['a', '.', ' ', 'b', '.', ' ', 'x', 'y', 'z'] 0 9) 4
      = 6 ∧
    (3 : Nat) ≠ 6 := by
  decide

/-- C5, amended.  The snapped end chosen by `findSentenceBoundary` is the
end of the first (leftmost) sentence-boundary match in the last 200
characters of the tentative window, not the last one; only when no
sentence boundary exists there is the first paragraph break in the same
window used; and only when neither exists is the tentative end kept. -/
theorem claim_C5_thm (text : List Char) (start e : Nat) :
    (∃ i, sentMatchAt (searchWindow text start e) i = true ∧
        (∀ j, j < i → sentMatchAt (searchWindow text start e) j = false) ∧
        findSentenceBoundary text start e =
          searchStartAt start e + matchEndAt (searchWindow text start e) i) ∨
    ((∀ i, sentMatchAt (searchWindow text start e) i = false) ∧
      ∃ i, paraMatchAt (searchWindow text start e) i = true ∧
        (∀ j, j < i → paraMatchAt (searchWindow text start e) j = false) ∧
        findSentenceBoundary text start e = searchStartAt start e + i + 2) ∨
    ((∀ i, sentMatchAt (searchWindow text start e) i = false) ∧
      (∀ i, paraMatchAt (searchWindow text start e) i = false) ∧
      findSentenceBoundary text start e = e) := by
  unfold findSentenceBoundary
  cases hs : execSentence (searchWindow text start e) with
  | some p =>
    obtain ⟨i, n⟩ := p
    obtain ⟨m1, m2, m3, _, _⟩ := execSentence_some hs
    refine Or.inl ⟨i, m1, m2, ?_⟩
    dsimp only
    rw [matchEndAt, m3]
    omega
  | none =>
    have hno := execSentence_none hs
    dsimp only
    cases hp : execPara (searchWindow text start e) with
    | some i =>
      obtain ⟨m1, m2, _⟩ := execPara_some hp
      exact Or.inr (Or.inl ⟨hno, i, m1, m2, rfl⟩)
    | none =>
      exact Or.inr (Or.inr ⟨hno, execPara_none hp, rfl⟩)

/-- C5, witness: the theorem instantiated on the counterexample text,
where the first disjunct holds with the match at window index 1. -/
theorem claim_C5_witness :
    (∃ i, sentMatchAt (searchWindow ['a', '.', ' ', 'b', '.', ' ', 'x', 'y', 'z'] 0 9)
        i = true ∧
      (∀ j, j < i →
        sentMatchAt (searchWindow ['a', '.', ' ', 'b', '.', ' ', 'x', 'y', 'z'] 0 9)
          j = false) ∧
      findSentenceBoundary ['a', '.', ' ', 'b', '.', ' ', 'x', 'y', 'z'] 0 9 =
        searchStartAt 0 9 +
          matchEndAt (searchWindow ['a', '.', ' ', 'b', '.', ' ', 'x', 'y', 'z'] 0 9) i) ∨
    ((∀ i, sentMatchAt (searchWindow ['a', '.', ' ', 'b', '.', ' ', 'x', 'y', 'z'] 0 9)
        i = false) ∧
      ∃ i, paraMatchAt (searchWindow ['a', '.', ' ', 'b', '.', ' ', 'x', 'y', 'z'] 0 9)
          i = true ∧
        (∀ j, j < i →
          paraMatchAt (searchWindow ['a', '.', ' ', 'b', '.', ' ', 'x', 'y', 'z'] 0 9)
            j = false) ∧
        findSentenceBoundary ['a', '.', ' ', 'b', '.', ' ', 'x', 'y', 'z'] 0 9 =
          searchStartAt 0 9 + i + 2) ∨
    ((∀ i, sentMatchAt (searchWindow ['a', '.', ' ', 'b', '.', ' ', 'x', 'y', 'z'] 0 9)
        i = false) ∧
      (∀ i, paraMatchAt (searchWindow ['a', '.', ' ', 'b', '.', ' ', 'x', 'y', 'z'] 0 9)
        i = false) ∧
      findSentenceBoundary ['a', '.', ' ', 'b', '.', ' ', 'x', 'y', 'z'] 0 9 = 9) :=
  claim_C5_thm ['a', '.', ' ', 'b', '.', ' ', 'x', 'y', 'z'] 0 9

/-- C6.  The loop advance of `chunkText` is always at least the chunk
size past the current start (the `startChar + chunkSize` floor of the
`max`), so the chunking loop terminates after finitely many iterations:
the model is a total function, and on any text it produces exactly
`⌈length / 1000⌉` chunks, boundary matches or not. -/
theorem claim_C6_thm (text : List Char) (s : Nat) :
    s + chunkSize ≤ advanceStart 200 (adjustedEndAt text s) s ∧
    (chunkText text).length = (text.length + 999) / 1000 := by
  refine ⟨Nat.le_max_right _ _, ?_⟩
  show (chunkAux 200 text 0 0).length = _
  rw [chunkAux_length 200 text 0 0]
  omega

/-- C6, witness: the theorem instantiated on the three-character text
`abc` at start offset `0`. -/
theorem claim_C6_witness :
    0 + chunkSize ≤ advanceStart 200 (adjustedEndAt ['a', 'b', 'c'] 0) 0 ∧
    (chunkText ['a', 'b', 'c']).length = (['a', 'b', 'c'].length + 999) / 1000 :=
  claim_C6_thm ['a', 'b', 'c'] 0

/-- C10.  For every overlap configuration, the `i`-th chunk starts
exactly at `i * chunkSize`, carries sequence index `i`, and ends no later
than `(i + 1) * chunkSize`; consequently later chunks start at or after
the end of every earlier one (chunks never share a character), and the
output does not depend on the configured overlap at all. -/
theorem claim_C10_thm (ov : Nat) (text : List Char) (i : Nat)
    (hi : i < (chunkTextWith ov text).length) :
    ∃ c, (chunkTextWith ov text).get? i = some c ∧
      c.startChar = chunkSize * i ∧ c.index = i ∧
      c.endChar ≤ chunkSize * i + chunkSize ∧
      (∀ j c', i < j → (chunkTextWith ov text).get? j = some c' →
        c.endChar ≤ c'.startChar) ∧
      chunkTextWith ov text = chunkText text := by
  have hstart : ∀ k, k < (chunkTextWith ov text).length → chunkSize * k < text.length := by
    intro k hk
    have hl : (chunkTextWith ov text).length = (text.length - 0 + 999) / 1000 :=
      chunkAux_length ov text 0 0
    rw [hl] at hk
    simp only [chunkSize]
    omega
  have hget := chunkAux_get? ov text i 0 0 hi
  refine ⟨mkChunk text (0 + chunkSize * i) (0 + i), hget, by simp [mkChunk],
    by simp [mkChunk], ?_, ?_, ?_⟩
  · have hb := (adjustedEndAt_bounds (by simpa using hstart i hi)).2
    simp only [mkChunk, Nat.zero_add] at hb ⊢
    have := Nat.min_le_left (chunkSize * i + chunkSize) text.length
    omega
  · intro j c' hij hj
    have hjl : j < (chunkTextWith ov text).length := by
      by_contra hc
      rw [List.get?_eq_none.mpr (by omega)] at hj
      exact absurd hj (by simp)
    have hgj : (chunkTextWith ov text).get? j =
        some (mkChunk text (0 + chunkSize * j) (0 + j)) :=
      chunkAux_get? ov text j 0 0 hjl
    rw [hj] at hgj
    have hc' : c' = mkChunk text (0 + chunkSize * j) (0 + j) := by
      injection hgj
    subst hc'
    have hb := (adjustedEndAt_bounds (by simpa using hstart i hi)).2
    simp only [mkChunk, Nat.zero_add] at hb ⊢
    have h1 := Nat.min_le_left (chunkSize * i + chunkSize) text.length
    have h2 : chunkSize * i + chunkSize ≤ chunkSize * j := by
      have h3 : chunkSize * (i + 1) ≤ chunkSize * j :=
        Nat.mul_le_mul_left _ (by omega)
      rw [Nat.mul_succ] at h3
      exact h3
    omega
  · exact chunkAux_overlap ov text 0 0

/-- C10, witness: the theorem instantiated on the one-character text
`a` with overlap `0` and chunk position `0`. -/
theorem claim_C10_witness :
    0 < (chunkTextWith 0 ['a']).length ∧
    (∃ c, (chunkTextWith 0 ['a']).get? 0 = some c ∧
      c.startChar = chunkSize * 0 ∧ c.index = 0 ∧
      c.endChar ≤ chunkSize * 0 + chunkSize ∧
      (∀ j c', 0 < j → (chunkTextWith 0 ['a']).get? j = some c' →
        c.endChar ≤ c'.startChar) ∧
      chunkTextWith 0 ['a'] = chunkText ['a']) := by
  have hlen : 0 < (chunkTextWith 0 ['a']).length := by
    show 0 < (chunkAux 0 ['a'] 0 0).length
    rw [chunkAux_length 0 ['a'] 0 0]
    decide
  exact ⟨hlen, claim_C10_thm 0 ['a'] 0 hlen⟩

/-! Lemmas about the cosine-similarity computation. -/

theorem sumSq_nonneg (v : List ℝ) : 0 ≤ sumSq v := by
  apply List.sum_nonneg
  intro x hx
  obtain ⟨y, _, rfl⟩ := List.mem_map.mp hx
  exact mul_self_nonneg y

theorem sumSq_eq_zero_iff (v : List ℝ) : sumSq v = 0 ↔ ∀ x ∈ v, x = 0 := by
  induction v with
  | nil => simp [sumSq]
  | cons x t ih =>
    have hx : 0 ≤ x * x := mul_self_nonneg x
    have ht : 0 ≤ sumSq t := sumSq_nonneg t
    have hstep : sumSq (x :: t) = x * x + sumSq t := by
      simp [sumSq]
    constructor
    · intro h
      have hxx : x * x = 0 ∧ sumSq t = 0 := by
        constructor <;> nlinarith [hx, ht]
      intro y hy
      rcases List.mem_cons.mp hy with rfl | hyt
      · exact mul_self_eq_zero.mp hxx.1
      · exact (ih.mp hxx.2) y hyt
    · intro h
      rw [hstep, ih.mpr (fun y hy => h y (List.mem_cons.mpr (Or.inr hy))),
        h x (List.mem_cons.mpr (Or.inl rfl))]
      ring

theorem sqrt_sumSq_eq_zero_iff (v : List ℝ) :
    Real.sqrt (sumSq v) = 0 ↔ ∀ x ∈ v, x = 0 := by
  rw [Real.sqrt_eq_zero (sumSq_nonneg v)]
  exact sumSq_eq_zero_iff v

/-- C3.  `cosineSimilarity` errors exactly on mismatched lengths; for
equal-length vectors it never divides by zero: when either vector is the
zero vector (zero norm) it returns `Except.ok 0`, and otherwise it
returns the dot product divided by the product of the two norms, which
is then provably nonzero. -/
theorem claim_C3_thm (vecA vecB : List ℝ) :
    (vecA.length ≠ vecB.length →
      cosineSimilarity vecA vecB =
        Except.error "Vectors must have the same length") ∧
    (vecA.length = vecB.length →
      (((∀ x ∈ vecA, x = 0) ∨ (∀ x ∈ vecB, x = 0)) →
        cosineSimilarity vecA vecB = Except.ok 0) ∧
      ((¬ ∀ x ∈ vecA, x = 0) → (¬ ∀ x ∈ vecB, x = 0) →
        Real.sqrt (sumSq vecA) * Real.sqrt (sumSq vecB) ≠ 0 ∧
        cosineSimilarity vecA vecB =
          Except.ok (dotProduct vecA vecB /
            (Real.sqrt (sumSq vecA) * Real.sqrt (sumSq vecB))))) := by
  constructor
  · intro h
    rw [cosineSimilarity, if_pos h]
  · intro h
    have hne : ¬ vecA.length ≠ vecB.length := by omega
    constructor
    · intro hz
      rw [cosineSimilarity, if_neg hne, cosSimVal, if_pos]
      rcases hz with hz | hz
      · exact Or.inl ((sqrt_sumSq_eq_zero_iff vecA).mpr hz)
      · exact Or.inr ((sqrt_sumSq_eq_zero_iff vecB).mpr hz)
    · intro ha hb
      have ha' : Real.sqrt (sumSq vecA) ≠ 0 :=
        fun hc => ha ((sqrt_sumSq_eq_zero_iff vecA).mp hc)
      have hb' : Real.sqrt (sumSq vecB) ≠ 0 :=
        fun hc => hb ((sqrt_sumSq_eq_zero_iff vecB).mp hc)
      refine ⟨mul_ne_zero ha' hb', ?_⟩
      rw [cosineSimilarity, if_neg hne, cosSimVal, if_neg]
      push_neg
      exact ⟨ha', hb'⟩

/-- C3, witness: the theorem instantiated on the zero vector `[0]` and
`[5]` — equal lengths, the first norm is zero, and the result is
exactly `0`. -/
theorem claim_C3_witness :
    ([(0 : ℝ)].length = [(5 : ℝ)].length) ∧
    ((∀ x ∈ [(0 : ℝ)], x = 0) ∨ (∀ x ∈ [(5 : ℝ)], x = 0)) ∧
    cosineSimilarity [(0 : ℝ)] [(5 : ℝ)] = Except.ok 0 :=
  ⟨rfl, Or.inl (by simp),
    ((claim_C3_thm [(0 : ℝ)] [(5 : ℝ)]).2 rfl).1 (Or.inl (by simp))⟩

/-! Lemmas about the stable sort inside `searchSimilar`. -/

theorem filter_orderedInsert (x : Document × ℝ) (l : List (Document × ℝ)) (s : ℝ) :
    (l.orderedInsert simBefore x).filter (fun p => decide (p.2 = s)) =
      if x.2 = s then x :: l.filter (fun p => decide (p.2 = s))
      else l.filter (fun p => decide (p.2 = s)) := by
  induction l with
  | nil =>
    by_cases hx : x.2 = s <;> simp [List.orderedInsert, hx]
  | cons b t ih =>
    by_cases hxb : simBefore x b
    · rw [List.orderedInsert, if_pos hxb]
      by_cases hx : x.2 = s <;> simp [List.filter_cons, hx]
    · rw [List.orderedInsert, if_neg hxb]
      have hlt : x.2 < b.2 := not_le.mp hxb
      by_cases hx : x.2 = s
      · have hb : ¬ b.2 = s := by
          rw [← hx]
          exact (ne_of_gt hlt)
        simp [List.filter_cons, hb, ih, hx]
      · simp [List.filter_cons, ih, hx]

theorem filter_insertionSort (l : List (Document × ℝ)) (s : ℝ) :
    (l.insertionSort simBefore).filter (fun p => decide (p.2 = s)) =
      l.filter (fun p => decide (p.2 = s)) := by
  induction l with
  | nil => rfl
  | cons x t ih =>
    rw [List.insertionSort, filter_orderedInsert, ih]
    by_cases hx : x.2 = s <;> simp [List.filter_cons, hx]

theorem filter_map_fst (q : List ℝ) (s : ℝ) :
    ∀ l : List (Document × ℝ), (∀ p ∈ l, p.2 = cosSimVal q p.1.embedding) →
      (l.map (fun p => p.1)).filter (fun d => decide (cosSimVal q d.embedding = s)) =
        (l.filter (fun p => decide (p.2 = s))).map (fun p => p.1) := by
  intro l
  induction l with
  | nil => intro _; rfl
  | cons p t ih =>
    intro hinv
    have hp : p.2 = cosSimVal q p.1.embedding :=
      hinv p (List.mem_cons.mpr (Or.inl rfl))
    have ht := ih (fun r hr => hinv r (List.mem_cons.mpr (Or.inr hr)))
    by_cases hps : cosSimVal q p.1.embedding = s <;>
      simp [List.filter_cons, hp, hps, ht]

theorem filter_take (l : List (Document × ℝ)) (k : Nat) (Q : Document × ℝ → Bool) :
    ∃ m, (l.take k).filter Q = (l.filter Q).take m := by
  refine ⟨((l.take k).filter Q).length, ?_⟩
  have hsplit : l.filter Q = (l.take k).filter Q ++ (l.drop k).filter Q := by
    conv_lhs => rw [← List.take_append_drop k l]
    rw [List.filter_append]
  rw [hsplit, List.take_left]

theorem docSimPairs_ok {q : List ℝ} :
    ∀ {docs : List Document}, (∀ d ∈ docs, d.embedding.length = q.length) →
      docSimPairs q docs =
        Except.ok (docs.map (fun d => (d, cosSimVal q d.embedding))) := by
  intro docs
  induction docs with
  | nil => intro _; rfl
  | cons d t ih =>
    intro h
    have hd : d.embedding.length = q.length :=
      h d (List.mem_cons.mpr (Or.inl rfl))
    have hcos : cosineSimilarity q d.embedding =
        Except.ok (cosSimVal q d.embedding) := by
      rw [cosineSimilarity, if_neg]
      omega
    have ht := ih (fun r hr => h r (List.mem_cons.mpr (Or.inr hr)))
    rw [docSimPairs] at ht ⊢
    rw [List.mapM_cons, hcos, ht]
    rfl

theorem sorted_take_pairwise (q : List ℝ) (k : Nat) (pairs : List (Document × ℝ))
    (hpv : ∀ p ∈ pairs, p.2 = cosSimVal q p.1.embedding) :
    (((pairs.insertionSort simBefore).take k).map (fun p => p.1)).Pairwise
      (fun d1 d2 => cosSimVal q d2.embedding ≤ cosSimVal q d1.embedding) := by
  have hinv : ∀ p ∈ pairs.insertionSort simBefore,
      p.2 = cosSimVal q p.1.embedding :=
    fun p hp => hpv p ((List.mem_insertionSort simBefore).mp hp)
  have hs : List.Sorted simBefore (pairs.insertionSort simBefore) :=
    List.sorted_insertionSort simBefore pairs
  have hp : ((pairs.insertionSort simBefore).take k).Pairwise simBefore :=
    List.Pairwise.sublist (List.take_sublist k _) hs
  refine List.pairwise_map.mpr (hp.imp_of_mem ?_)
  intro a b ha hb hab
  have ha' := hinv a (List.mem_of_mem_take ha)
  have hb' := hinv b (List.mem_of_mem_take hb)
  rw [← ha', ← hb']
  exact hab

theorem sorted_take_stable (q : List ℝ) (k : Nat) (pairs : List (Document × ℝ))
    (hpv : ∀ p ∈ pairs, p.2 = cosSimVal q p.1.embedding) (s : ℝ) :
    ∃ m, (((pairs.insertionSort simBefore).take k).map (fun p => p.1)).filter
        (fun d => decide (cosSimVal q d.embedding = s)) =
      ((pairs.map (fun p => p.1)).filter
        (fun d => decide (cosSimVal q d.embedding = s))).take m := by
  have hinv : ∀ p ∈ pairs.insertionSort simBefore,
      p.2 = cosSimVal q p.1.embedding :=
    fun p hp => hpv p ((List.mem_insertionSort simBefore).mp hp)
  have htake : ∀ p ∈ (pairs.insertionSort simBefore).take k,
      p.2 = cosSimVal q p.1.embedding :=
    fun p hp => hinv p (List.mem_of_mem_take hp)
  have hA := filter_map_fst q s ((pairs.insertionSort simBefore).take k) htake
  obtain ⟨m, hB⟩ := filter_take (pairs.insertionSort simBefore) k
    (fun p => decide (p.2 = s))
  have hstab := filter_insertionSort pairs s
  have hApairs := filter_map_fst q s pairs hpv
  refine ⟨m, ?_⟩
  rw [hA, hB, hstab, List.map_take, hApairs]

/-- C2.  For every dimension-consistent document collection and query
vector, `searchSimilar` succeeds and returns at most `k` documents in
non-increasing cosine-similarity order; an empty collection yields the
empty list rather than an error; and ties are broken by insertion order:
for every similarity value `s`, the returned documents of similarity `s`
are exactly an initial segment of the stored documents of similarity `s`,
in their stored order (the ECMAScript sort is stable). -/
theorem claim_C2_thm (docs : List Document) (q : List ℝ) (k : Nat)
    (hdim : ∀ d ∈ docs, d.embedding.length = q.length) :
    ∃ res, searchSimilar docs q k = Except.ok res ∧
      res.length ≤ k ∧
      (docs = [] → res = []) ∧
      res.Pairwise (fun d1 d2 =>
        cosSimVal q d2.embedding ≤ cosSimVal q d1.embedding) ∧
      (∀ s : ℝ, ∃ m,
        res.filter (fun d => decide (cosSimVal q d.embedding = s)) =
          (docs.filter (fun d => decide (cosSimVal q d.embedding = s))).take m) := by
  by_cases hd : docs.isEmpty
  · refine ⟨[], ?_, by simp, fun _ => rfl, List.Pairwise.nil, fun s => ⟨0, ?_⟩⟩
    · rw [searchSimilar, if_pos hd]
    · have : docs = [] := List.isEmpty_iff.mp hd
      subst this
      simp
  · have hpairs_inv : ∀ p ∈ docs.map (fun d => (d, cosSimVal q d.embedding)),
        p.2 = cosSimVal q p.1.embedding := by
      intro p hp
      obtain ⟨d, _, rfl⟩ := List.mem_map.mp hp
      rfl
    have hdocs : (docs.map (fun d => (d, cosSimVal q d.embedding))).map
        (fun p => p.1) = docs := by
      rw [List.map_map]
      exact List.map_id'' (fun x => rfl) docs
    have hres : searchSimilar docs q k =
        Except.ok ((((docs.map (fun d => (d, cosSimVal q d.embedding))).insertionSort
          simBefore).take k).map (fun p => p.1)) := by
      rw [searchSimilar, if_neg hd, docSimPairs_ok hdim]
      rfl
    refine ⟨_, hres, ?_, ?_, ?_, ?_⟩
    · simp only [List.length_map, List.length_take]
      exact Nat.min_le_left _ _
    · intro h
      subst h
      simp at hd
    · exact sorted_take_pairwise q k _ hpairs_inv
    · intro s
      obtain ⟨m, hm⟩ := sorted_take_stable q k _ hpairs_inv s
      rw [hdocs] at hm
      exact ⟨m, hm⟩

/-- C2, witness: the theorem instantiated on a two-document collection
with embeddings `[0, 1]` and `[1, 0]` and the query vector `[1, 0]`. -/
theorem claim_C2_witness :
    (∀ d ∈ [(⟨"doc0", "t0", [(0 : ℝ), 1], none⟩ : Document),
        ⟨"doc1", "t1", [(1 : ℝ), 0], none⟩],
      d.embedding.length = [(1 : ℝ), 0].length) ∧
    (∃ res, searchSimilar
        [(⟨"doc0", "t0", [(0 : ℝ), 1], none⟩ : Document),
         ⟨"doc1", "t1", [(1 : ℝ), 0], none⟩] [(1 : ℝ), 0] 5 = Except.ok res ∧
      res.length ≤ 5 ∧
      ([(⟨"doc0", "t0", [(0 : ℝ), 1], none⟩ : Document),
        ⟨"doc1", "t1", [(1 : ℝ), 0], none⟩] = ([] : List Document) → res = []) ∧
      res.Pairwise (fun d1 d2 =>
        cosSimVal [(1 : ℝ), 0] d2.embedding ≤ cosSimVal [(1 : ℝ), 0] d1.embedding) ∧
      (∀ s : ℝ, ∃ m,
        res.filter (fun d => decide (cosSimVal [(1 : ℝ), 0] d.embedding = s)) =
          ([(⟨"doc0", "t0", [(0 : ℝ), 1], none⟩ : Document),
            ⟨"doc1", "t1", [(1 : ℝ), 0], none⟩].filter
              (fun d => decide (cosSimVal [(1 : ℝ), 0] d.embedding = s))).take m)) := by
  have hdim : ∀ d ∈ [(⟨"doc0", "t0", [(0 : ℝ), 1], none⟩ : Document),
      ⟨"doc1", "t1", [(1 : ℝ), 0], none⟩],
      d.embedding.length = [(1 : ℝ), 0].length := by
    intro d hd
    rcases List.mem_cons.mp hd with rfl | hd
    · rfl
    · rcases List.mem_cons.mp hd with rfl | hd
      · rfl
      · exact absurd hd (List.not_mem_nil d)
  exact ⟨hdim, claim_C2_thm _ _ 5 hdim⟩

/-! Theorems for the orchestrator claims. -/

theorem initializeRag_cases (scrape : String → Option String)
    (embed : List String → Option (List (List ℝ)))
    (stripMarkers : String → String) (extractSource : String → Option String)
    (now : Nat) (urls : List String) (st : RagState) :
    ((initializeRag scrape embed stripMarkers extractSource now urls st).1.documents =
      st.documents) ∨
    (initializeRag scrape embed stripMarkers extractSource now urls st).2 =
      Except.ok () := by
  unfold initializeRag
  dsimp only
  split
  · exact Or.inl rfl
  · split
    · exact Or.inl rfl
    · split
      · exact Or.inl rfl
      · exact Or.inr rfl

/-- C7.  Whenever an `initializeRag` run fails — no seed yielded content,
the chunker produced zero chunks, or the embedder failed — the document
collection of the vector database after the run is exactly the
collection from before the run: the index is only replaced on the
all-success path. -/
theorem claim_C7_thm (scrape : String → Option String)
    (embed : List String → Option (List (List ℝ)))
    (stripMarkers : String → String) (extractSource : String → Option String)
    (now : Nat) (urls : List String) (st : RagState) (msg : String)
    (herr : (initializeRag scrape embed stripMarkers extractSource now urls st).2 =
      Except.error msg) :
    (initializeRag scrape embed stripMarkers extractSource now urls st).1.documents =
      st.documents := by
  rcases initializeRag_cases scrape embed stripMarkers extractSource now urls st with
    h | h
  · exact h
  · rw [h] at herr
    exact absurd herr (by simp)

/-- C7, witness: a run over one seed whose scrape fails, on a state with
an empty prior collection — the run errors and the collection is kept. -/
theorem claim_C7_witness :
    ((initializeRag (fun _ => none) (fun _ => none) id (fun _ => none) 0 ["u"]
        ⟨[], false, none⟩).2 = Except.error "No content scraped from any website") ∧
    (initializeRag (fun _ => none) (fun _ => none) id (fun _ => none) 0 ["u"]
        ⟨[], false, none⟩).1.documents = (⟨[], false, none⟩ : RagState).documents :=
  ⟨rfl, claim_C7_thm (fun _ => none) (fun _ => none) id (fun _ => none) 0 ["u"]
    ⟨[], false, none⟩ "No content scraped from any website" rfl⟩

/-- C8, counterexample.  A blank query issued while the state is not
Ready fails with the input error `Query is required`, not with the state
error: the blank-query guard runs before the initialization guard, so
the claim's "fails with a state error" does not hold for every query.
(No network call is made either way.) -/
theorem claim_C8_cex :
    ragQuery (fun _ => none) (fun _ => none) ⟨[], false, none⟩ "" =
      (Except.error queryRequiredMsg, []) ∧
    queryRequiredMsg ≠ notInitializedMsg := by
  constructor
  · rfl
  · simp [queryRequiredMsg, notInitializedMsg]

/-- C8, amended.  Every query issued while the session is not Ready
(`isInitialized = false`) fails immediately with zero effects: the
embedder is not invoked, the vector index is not searched and the answer
generator is not invoked; when the query text is non-blank the error is
the state error, while a blank query fails with the input error
`Query is required` first. -/
theorem claim_C8_thm (embedOne : String → Option (List ℝ))
    (llm : String → Option (Option String)) (st : RagState) (query : String)
    (hstate : st.isInitialized = false) :
    (isBlankText query = false →
      ragQuery embedOne llm st query = (Except.error notInitializedMsg, [])) ∧
    (ragQuery embedOne llm st query).2 = [] := by
  unfold ragQuery
  by_cases hb : isBlankText query
  · rw [if_pos hb]
    exact ⟨fun h => absurd hb (by simp [h]), rfl⟩
  · rw [if_neg hb]
    rw [hstate]
    simp

/-- C8, witness: a non-blank query against a fresh, never-initialized
state fails with the state error and an empty effect list. -/
theorem claim_C8_witness :
    ((⟨[], false, none⟩ : RagState).isInitialized = false ∧
      isBlankText "hi" = false) ∧
    ragQuery (fun _ => none) (fun _ => none) ⟨[], false, none⟩ "hi" =
      (Except.error notInitializedMsg, []) :=
  ⟨⟨rfl, rfl⟩,
    (claim_C8_thm (fun _ => none) (fun _ => none) ⟨[], false, none⟩ "hi" rfl).1 rfl⟩

/-! Lemmas about the crawl loop. -/

theorem crawlLoop_nil (fetch : String → Option String)
    (links : String → List String) (st : CrawlState) (h : st.queue = []) :
    crawlLoop fetch links st = st := by
  rw [crawlLoop]
  split
  · rfl
  · rename_i u rest hq
    rw [h] at hq
    cases hq

theorem crawlLoop_cap (fetch : String → Option String)
    (links : String → List String) (st : CrawlState) (u : String)
    (rest : List String) (hq : st.queue = u :: rest)
    (hv : ¬ st.visited.length < maxPages) :
    crawlLoop fetch links st = st := by
  rw [crawlLoop]
  split
  · rfl
  · rename_i u' rest' hq'
    rw [dif_neg hv]

theorem crawlLoop_skip (fetch : String → Option String)
    (links : String → List String) (st : CrawlState) (u : String)
    (rest : List String) (hq : st.queue = u :: rest)
    (hv : st.visited.length < maxPages) (hmem : u ∈ st.visited) :
    crawlLoop fetch links st =
      crawlLoop fetch links { st with queue := rest } := by
  rw [crawlLoop]
  split
  · rename_i h
    rw [h] at hq
    cases hq
  · rename_i u' rest' hq'
    rw [hq] at hq'
    injection hq' with h1 h2
    subst h1
    subst h2
    rw [dif_pos hv, if_pos hmem]

theorem crawlLoop_fail (fetch : String → Option String)
    (links : String → List String) (st : CrawlState) (u : String)
    (rest : List String) (hq : st.queue = u :: rest)
    (hv : st.visited.length < maxPages) (hmem : u ∉ st.visited)
    (hf : fetch u = none) :
    crawlLoop fetch links st =
      crawlLoop fetch links
        { st with queue := rest, fetchLog := st.fetchLog ++ [u] } := by
  rw [crawlLoop]
  split
  · rename_i h
    rw [h] at hq
    cases hq
  · rename_i u' rest' hq'
    rw [hq] at hq'
    injection hq' with h1 h2
    subst h1
    subst h2
    rw [dif_pos hv, if_neg hmem, hf]

theorem crawlLoop_succ (fetch : String → Option String)
    (links : String → List String) (st : CrawlState) (u : String)
    (rest : List String) (c : String) (hq : st.queue = u :: rest)
    (hv : st.visited.length < maxPages) (hmem : u ∉ st.visited)
    (hf : fetch u = some c) :
    crawlLoop fetch links st =
      crawlLoop fetch links
        { visited := st.visited ++ [u]
          queue := enqueueLinks st.visited rest (links u)
          content :=
            if isBlankText c then st.content else st.content ++ [pageTag u c]
          fetchLog := st.fetchLog ++ [u] } := by
  rw [crawlLoop]
  split
  · rename_i h
    rw [h] at hq
    cases hq
  · rename_i u' rest' hq'
    rw [hq] at hq'
    injection hq' with h1 h2
    subst h1
    subst h2
    rw [dif_pos hv, if_neg hmem, hf]

theorem crawlLoop_count_le (fetch : String → Option String)
    (links : String → List String) (u : String) (hu : (fetch u).isSome = true) :
    ∀ st : CrawlState,
      st.fetchLog.count u ≤ 1 →
      (1 ≤ st.fetchLog.count u → u ∈ st.visited) →
      (crawlLoop fetch links st).fetchLog.count u ≤ 1 := by
  intro st
  induction st using crawlLoop.induct fetch links with
  | case1 st h =>
    intro h1 _
    rw [crawlLoop_nil fetch links st h]
    exact h1
  | case2 st v rest hq hv hmem ih =>
    intro h1 h2
    rw [crawlLoop_skip fetch links st v rest hq hv hmem]
    exact ih h1 h2
  | case3 st v rest hq hv hmem hf ih =>
    intro h1 h2
    rw [crawlLoop_fail fetch links st v rest hq hv hmem hf]
    have hvu : v ≠ u := by
      intro h
      subst h
      rw [hf] at hu
      simp at hu
    apply ih
    · simp only [List.count_append, List.count_singleton', if_neg hvu]
      omega
    · intro hcount
      simp only [List.count_append, List.count_singleton', if_neg hvu] at hcount
      exact h2 (by omega)
  | case4 st v rest hq hv hmem c hf ih =>
    intro h1 h2
    rw [crawlLoop_succ fetch links st v rest c hq hv hmem hf]
    by_cases hvu : v = u
    · subst hvu
      have h0 : st.fetchLog.count v = 0 := by
        by_contra h
        exact hmem (h2 (by omega))
      apply ih
      · simp [List.count_append, List.count_singleton', h0]
      · intro _
        simp
    · apply ih
      · simp only [List.count_append, List.count_singleton', if_neg hvu]
        omega
      · intro hcount
        simp only [List.count_append, List.count_singleton', if_neg hvu] at hcount
        have := h2 (by omega)
        simp [List.mem_append, this]
  | case5 st v rest hq hv =>
    intro h1 _
    rw [crawlLoop_cap fetch links st v rest hq hv]
    exact h1

theorem enqueueLinks_step_pos (visited queue : List String) (x : String)
    (t : List String) (hc : x ∉ visited ∧ x ∉ queue) :
    enqueueLinks visited queue (x :: t) =
      enqueueLinks visited (queue ++ [x]) t := by
  rw [enqueueLinks, List.foldl_cons]
  rw [if_pos hc]
  rfl

theorem enqueueLinks_step_neg (visited queue : List String) (x : String)
    (t : List String) (hc : ¬ (x ∉ visited ∧ x ∉ queue)) :
    enqueueLinks visited queue (x :: t) = enqueueLinks visited queue t := by
  rw [enqueueLinks, List.foldl_cons]
  rw [if_neg hc]
  rfl

theorem enqueueLinks_mem :
    ∀ (ls visited queue : List String) (l : String),
      l ∈ enqueueLinks visited queue ls →
      l ∈ queue ∨ (l ∈ ls ∧ l ∉ visited ∧ l ∉ queue) := by
  intro ls
  induction ls with
  | nil => intro visited queue l h; exact Or.inl h
  | cons x t ih =>
    intro visited queue l h
    by_cases hc : x ∉ visited ∧ x ∉ queue
    · rw [enqueueLinks_step_pos visited queue x t hc] at h
      rcases ih visited (queue ++ [x]) l h with h' | ⟨hlt, hlv, hlq⟩
      · rcases List.mem_append.mp h' with h'' | h''
        · exact Or.inl h''
        · have hx : l = x := List.mem_singleton.mp h''
          subst hx
          exact Or.inr ⟨List.mem_cons.mpr (Or.inl rfl), hc.1, hc.2⟩
      · exact Or.inr ⟨List.mem_cons.mpr (Or.inr hlt), hlv,
          fun hmm => hlq (List.mem_append.mpr (Or.inl hmm))⟩
    · rw [enqueueLinks_step_neg visited queue x t hc] at h
      rcases ih visited queue l h with h' | ⟨hlt, hlv, hlq⟩
      · exact Or.inl h'
      · exact Or.inr ⟨List.mem_cons.mpr (Or.inr hlt), hlv, hlq⟩

theorem enqueueLinks_nodup :
    ∀ (ls visited queue : List String), queue.Nodup →
      (enqueueLinks visited queue ls).Nodup := by
  intro ls
  induction ls with
  | nil => intro _ _ h; exact h
  | cons x t ih =>
    intro visited queue h
    by_cases hc : x ∉ visited ∧ x ∉ queue
    · rw [enqueueLinks_step_pos visited queue x t hc]
      apply ih
      rw [List.nodup_append]
      refine ⟨h, List.nodup_singleton x, ?_⟩
      intro a ha hax
      rw [List.mem_singleton] at hax
      subst hax
      exact hc.2 ha
    · rw [enqueueLinks_step_neg visited queue x t hc]
      exact ih visited queue h

/-- C9, counterexample.  Seed `a` links to `f` and `b`; the fetch of `f`
throws (so `f` is never marked visited), and `b` links to `f` again: the
session fetches `f` twice, refuting "every URL is fetched at most once".
The fetch log of the session is `[a, f, b, f]`. -/
theorem claim_C9_cex :
    (scrapeWebsiteState
        (fun u => if u = "a" then some "x" else if u = "b" then some "y" else none)
        (fun u => if u = "a" then ["f", "b"] else if u = "b" then ["f"] else [])
        "a").fetchLog = ["a", "f", "b", "f"] ∧
    ((scrapeWebsiteState
        (fun u => if u = "a" then some "x" else if u = "b" then some "y" else none)
        (fun u => if u = "a" then ["f", "b"] else if u = "b" then ["f"] else [])
        "a").fetchLog).count "f" = 2 ∧
    ¬ ((2 : Nat) ≤ 1) := by
  have h : (scrapeWebsiteState
      (fun u => if u = "a" then some "x" else if u = "b" then some "y" else none)
      (fun u => if u = "a" then ["f", "b"] else if u = "b" then ["f"] else [])
      "a").fetchLog = ["a", "f", "b", "f"] := by
    simp [scrapeWebsiteState, crawlLoop, maxPages, enqueueLinks, isBlankText,
      pageTag, isJsWs]
  refine ⟨h, ?_, by omega⟩
  rw [h]
  rfl

/-- C9, amended.  Within one crawl session, every URL whose fetch
succeeds is fetched at most once (once fetched it is marked visited and
the dequeue guard skips it forever); a URL whose fetch throws is not
marked visited and may be fetched again if rediscovered.  At enqueue
time, URLs already visited or already pending are not enqueued, and the
frontier never accumulates duplicates. -/
theorem claim_C9_thm (fetch : String → Option String)
    (links : String → List String) (seed : String) :
    (∀ u, (fetch u).isSome = true →
      ((scrapeWebsiteState fetch links seed).fetchLog).count u ≤ 1) ∧
    (∀ visited queue ls l, l ∈ enqueueLinks visited queue ls →
      l ∈ queue ∨ (l ∈ ls ∧ l ∉ visited ∧ l ∉ queue)) ∧
    (∀ visited queue ls, queue.Nodup → (enqueueLinks visited queue ls).Nodup) := by
  refine ⟨?_, fun v q ls l => enqueueLinks_mem ls v q l,
    fun v q ls => enqueueLinks_nodup ls v q⟩
  intro u hu
  show (crawlLoop fetch links
    { visited := [], queue := [seed], content := [], fetchLog := [] }).fetchLog.count u ≤ 1
  apply crawlLoop_count_le fetch links u hu
  · simp
  · intro h
    simp at h

/-- C9, witness: the amended theorem instantiated on an oracle whose
fetches all succeed and yield no links, crawling from seed `s`. -/
theorem claim_C9_witness :
    (((fun _ : String => some "c") "a").isSome = true) ∧
    ((scrapeWebsiteState (fun _ : String => some "c") (fun _ => []) "s").fetchLog).count
      "a" ≤ 1 :=
  ⟨rfl, (claim_C9_thm (fun _ : String => some "c") (fun _ => []) "s").1 "a" rfl⟩

end Rag
